import Mathlib

/-!
Verification of the order-book maintenance core of `gdax-orderbook.hpp`.

The C++ class `GDAXOrderBook` keeps two concurrent price→quantity maps
(`bids`, `asks`, both `cds::container::SkipListMap<HP, double, double>`)
and a consumer loop `processUpdates` that dequeues decoded feed messages
and applies them.  We embed the single-threaded applier logic shallowly:

* a map is an association list `List (ℚ × ℚ)` with the three libcds
  operations actually used by the code:
  - `insert(price, size)`  — inserts a new key only; it FAILS (leaves the
    map unchanged) when the key is already present (`Side.insertNew`);
  - `update(price, functor)` with the default `bInsert = true` — an
    upsert whose functor stores the new size both on freshly inserted and
    on existing pairs (`Side.updateQ`);
  - `erase(price)` — removes the key, a no-op when absent (`Side.erase`);
  the skip-list ordering only affects traversal order, which the applier
  never uses, so the association-list model observed through `lookup`
  captures exactly the map semantics the code relies on;
* prices and sizes, decimal strings parsed by `stod`, are modelled as ℚ;
* a decoded message (`rapidjson::Document`) is a record with the fields
  the applier reads: `type`, `bids`, `asks`, `changes`;
* the body of the `while` loop of `processUpdates` (after a successful
  dequeue and parse) is `processMsg`; draining a finite queue prefix is
  `processUpdates`, a left fold in arrival order.
-/

/-- Price and quantity values (`double` in the source, obtained from
decimal strings via `stod`). -/
abbrev Qty := ℚ

/-- One side of the book: the price→quantity map (`map_t` in the source),
modelled as an association list observed through `Side.lookup`. -/
abbrev Side := List (Qty × Qty)

namespace Side

/-- `map_t::get`/point lookup: the quantity stored at `p`, if present. -/
def lookup : Side → Qty → Option Qty
  | [], _ => none
  | e :: rest, p => if e.1 = p then some e.2 else lookup rest p

/-- Key membership test, derived from `lookup`. -/
def containsKey (s : Side) (p : Qty) : Bool :=
  (s.lookup p).isSome

/-- `map_t::insert(price, size)` of libcds: inserts a new pair only when
the key is absent; when the key is already present the call fails and the
map is unchanged. -/
def insertNew : Side → Qty → Qty → Side
  | [], p, q => [(p, q)]
  | e :: rest, p, q => if e.1 = p then e :: rest else e :: insertNew rest p q

/-- `map_t::update(price, functor)` of libcds with default `bInsert = true`:
inserts the key when absent; in both cases the functor of the source
stores the new size into `pair.second` — an upsert. -/
def updateQ : Side → Qty → Qty → Side
  | [], p, q => [(p, q)]
  | e :: rest, p, q => if e.1 = p then (p, q) :: rest else e :: updateQ rest p q

/-- `map_t::erase(price)` of libcds: removes the key; no-op when absent.
(A real map holds each key at most once; removing every pair at the key
is the same operation, stated without a key-uniqueness side condition.) -/
def erase : Side → Qty → Side
  | [], _ => []
  | e :: rest, p => if e.1 = p then erase rest p else e :: erase rest p

end Side

/-- One element of an `l2update` message's `changes` array:
`[side, price, size]` (strings in the wire format; price and size already
parsed). -/
structure Change where
  side : String
  price : Qty
  size : Qty
deriving DecidableEq, Repr

/-- A decoded feed message, holding the fields `processUpdates` reads from
the parsed JSON document: the `type` discriminant, the `bids` and `asks`
entry lists (read only for snapshots) and the `changes` list (read only
for l2updates). -/
structure RawMsg where
  type : String
  bids : List (Qty × Qty)
  asks : List (Qty × Qty)
  changes : List Change
deriving DecidableEq, Repr

/-- The applier-visible state of `GDAXOrderBook`: the two sides and the
`m_bookInitialized` flag. -/
structure BookState where
  bids : Side
  asks : Side
  bookInitialized : Bool
deriving DecidableEq, Repr

/-- The state at construction: both maps empty, `m_bookInitialized = false`. -/
def initialState : BookState :=
  { bids := [], asks := [], bookInitialized := false }

/-- The body of the l2update inner loop for one change:
`map = buyOrSell=="buy" ? &bids : &asks;` then
`if (stod(size) == 0) map->erase(stod(price)); else map->update(...)`. -/
def applyToMap (m : Side) (price size : Qty) : Side :=
  if size = 0 then m.erase price else m.updateQ price size

/-- Applies one change of an `l2update` message to the book state,
routing exactly as the source: `buy` targets `bids`, anything else `asks`. -/
def applyChange (st : BookState) (c : Change) : BookState :=
  if c.side = "buy" then
    { st with bids := applyToMap st.bids c.price c.size }
  else
    { st with asks := applyToMap st.asks c.price c.size }

/-- The snapshot branch's inner loop over one side's entry list:
`i.second->insert(price, size)` for each `[price, size]` pair in order. -/
def applySnapshotSide (s : Side) (entries : List (Qty × Qty)) : Side :=
  entries.foldl (fun acc e => acc.insertNew e.1 e.2) s

/-- One iteration of the `processUpdates` loop body after a successful
dequeue and parse: dispatch on `doc["type"]`; a snapshot inserts both
entry lists and sets `m_bookInitialized`; an l2update applies its changes
in order; any other type falls through both branches and does nothing. -/
def processMsg (st : BookState) (m : RawMsg) : BookState :=
  if m.type = "snapshot" then
    { bids := applySnapshotSide st.bids m.bids
      asks := applySnapshotSide st.asks m.asks
      bookInitialized := true }
  else if m.type = "l2update" then
    m.changes.foldl applyChange st
  else
    st

/-- Draining a finite prefix of the queue: the messages are dequeued and
applied strictly in arrival order. -/
def processUpdates (st : BookState) (msgs : List RawMsg) : BookState :=
  msgs.foldl processMsg st

/-!
## Reference model from the specification's words (§4.3 / §8)

A plain single-threaded ordered map folded over the message sequence.
§4.3 rules: a snapshot entry is insert-or-overwritten (the later of two
entries with the same price wins); an l2update change with zero quantity
removes the price from the named side, a nonzero one insert-or-overwrites
it; `side = "buy"` names the bid side and `side = "sell"` the ask side;
unknown message types are ignored.
-/

/-- The reference ordered map of the specification, observed through
`Side.lookup` like the code model. -/
abbrev RefMap := List (Qty × Qty)

namespace RefMap

/-- Reference removal: drop every pair carrying the removed price. -/
def removeKey (m : RefMap) (p : Qty) : RefMap :=
  m.filter (fun e => decide (e.1 ≠ p))

/-- Reference insert-or-overwrite: remove any pair at the price, then
append the new pair — the latest write wins. -/
def upsert (m : RefMap) (p q : Qty) : RefMap :=
  m.removeKey p ++ [(p, q)]

/-- Insert-only-if-absent, the amended snapshot rule: keep the existing
pair when the price is present, otherwise append the new pair. -/
def insertIfAbsent (m : RefMap) (p q : Qty) : RefMap :=
  match Side.lookup m p with
  | some _ => m
  | none => m ++ [(p, q)]

end RefMap

/-- The reference book state of §8's fold. -/
structure RefState where
  bids : RefMap
  asks : RefMap
  initialized : Bool
deriving DecidableEq, Repr

/-- Reference initial state: empty and uninitialized. -/
def refInit : RefState :=
  { bids := [], asks := [], initialized := false }

/-- §4.3 steady-state rule for one change, on the side it names
(`"buy"` names the bid side, `"sell"` the ask side). -/
def refApplyChange (st : RefState) (c : Change) : RefState :=
  if c.side = "buy" then
    { st with bids :=
        if c.size = 0 then st.bids.removeKey c.price
        else st.bids.upsert c.price c.size }
  else if c.side = "sell" then
    { st with asks :=
        if c.size = 0 then st.asks.removeKey c.price
        else st.asks.upsert c.price c.size }
  else st

/-- Applies a change list in arrival order, by explicit recursion. -/
def refApplyChanges (st : RefState) : List Change → RefState
  | [] => st
  | c :: rest => refApplyChanges (refApplyChange st c) rest

/-- §4.3 snapshot rule over one side's entry list: each entry is
insert-or-overwritten, so the later of two entries at one price wins. -/
def refApplySnapshotSide (m : RefMap) : List (Qty × Qty) → RefMap
  | [] => m
  | e :: rest => refApplySnapshotSide (m.upsert e.1 e.2) rest

/-- One message under the specification's §4.3 rules. -/
def refProcessMsg (st : RefState) (m : RawMsg) : RefState :=
  if m.type = "snapshot" then
    { bids := refApplySnapshotSide st.bids m.bids
      asks := refApplySnapshotSide st.asks m.asks
      initialized := true }
  else if m.type = "l2update" then
    refApplyChanges st m.changes
  else st

/-- §8's reference fold of a message sequence. -/
def refFold : RefState → List RawMsg → RefState
  | st, [] => st
  | st, m :: rest => refFold (refProcessMsg st m) rest

/-- Amended snapshot rule over one side's entry list: each entry is
inserted only when its price is absent, so an existing pair — and hence
the earlier of two entries at one price — wins. -/
def refApplySnapshotSideA (m : RefMap) : List (Qty × Qty) → RefMap
  | [] => m
  | e :: rest => refApplySnapshotSideA (m.insertIfAbsent e.1 e.2) rest

/-- One message under the amended rules: as `refProcessMsg`, except that
snapshot entries are inserted only if absent. -/
def refProcessMsgA (st : RefState) (m : RawMsg) : RefState :=
  if m.type = "snapshot" then
    { bids := refApplySnapshotSideA st.bids m.bids
      asks := refApplySnapshotSideA st.asks m.asks
      initialized := true }
  else if m.type = "l2update" then
    refApplyChanges st m.changes
  else st

/-- The reference fold under the amended snapshot rule. -/
def refFoldA : RefState → List RawMsg → RefState
  | st, [] => st
  | st, m :: rest => refFoldA (refProcessMsgA st m) rest

/-- A change is valid when its side names one of the two book sides. -/
def ValidChange (c : Change) : Prop :=
  c.side = "buy" ∨ c.side = "sell"

/-- A valid feed message: a snapshot or an l2update whose changes all
name a real side. -/
def ValidMsg (m : RawMsg) : Prop :=
  (m.type = "snapshot" ∨ m.type = "l2update") ∧ ∀ c ∈ m.changes, ValidChange c

/-- A valid, in-order finite message sequence. -/
def ValidSeq (msgs : List RawMsg) : Prop :=
  ∀ m ∈ msgs, ValidMsg m

instance : DecidablePred ValidChange := fun c => by
  unfold ValidChange; infer_instance

instance : DecidablePred ValidMsg := fun m => by
  unfold ValidMsg; infer_instance

instance : DecidablePred ValidSeq := fun msgs => by
  unfold ValidSeq; infer_instance

/-!
## Derived predicates used by the claim statements
-/

/-- The side of the book a change's `side` string targets in the source:
`buy` targets `bids`, anything else targets `asks`
(`map_t * map = buyOrSell=="buy" ? &bids : &asks;`). -/
def namedSide (st : BookState) (side : String) : Side :=
  if side = "buy" then st.bids else st.asks

/-- A side satisfies the book invariant when every stored quantity is
nonzero (a key is present iff its quantity is nonzero). -/
def SideInv (s : Side) : Prop :=
  ∀ p q, s.lookup p = some q → q ≠ 0

/-- Both sides satisfy the book invariant. -/
def StateInv (st : BookState) : Prop :=
  SideInv st.bids ∧ SideInv st.asks

/-- All quantities carried by a snapshot message's entry lists are
nonzero (vacuous for non-snapshot messages). -/
def SnapshotEntriesNonzero (m : RawMsg) : Prop :=
  m.type = "snapshot" → (∀ e ∈ m.bids, e.2 ≠ 0) ∧ (∀ e ∈ m.asks, e.2 ≠ 0)

instance : DecidablePred SnapshotEntriesNonzero := fun m => by
  unfold SnapshotEntriesNonzero; infer_instance

/-- Two maps agree when they store the same quantity at every price. -/
def MapAgrees (s : Side) (m : RefMap) : Prop :=
  ∀ p, Side.lookup s p = Side.lookup m p

/-- A code-model state and a reference state agree on both book sides. -/
def StateAgrees (st : BookState) (rst : RefState) : Prop :=
  MapAgrees st.bids rst.bids ∧ MapAgrees st.asks rst.asks

/-!
## Lookup characterizations of the map operations
-/

theorem Side.lookup_insertNew (s : Side) (p q p' : Qty) :
    (s.insertNew p q).lookup p' =
      if p' = p then some ((s.lookup p).getD q) else s.lookup p' := by
  induction s with
  | nil =>
      by_cases h : p' = p
      · subst h; simp [Side.insertNew, Side.lookup]
      · simp [Side.insertNew, Side.lookup, h, Ne.symm h]
  | cons e rest ih =>
      by_cases he : e.1 = p
      · by_cases h : p' = p
        · subst h; simp [Side.insertNew, Side.lookup, he]
        · simp [Side.insertNew, Side.lookup, he, h, Ne.symm h]
      · by_cases h : e.1 = p'
        · have hp : ¬ p' = p := fun hx => he (h.trans hx)
          simp [Side.insertNew, Side.lookup, he, h, hp]
        · simp [Side.insertNew, Side.lookup, he, h, ih]

theorem Side.lookup_updateQ (s : Side) (p q p' : Qty) :
    (s.updateQ p q).lookup p' =
      if p' = p then some q else s.lookup p' := by
  induction s with
  | nil =>
      by_cases h : p' = p
      · subst h; simp [Side.updateQ, Side.lookup]
      · simp [Side.updateQ, Side.lookup, h, Ne.symm h]
  | cons e rest ih =>
      by_cases he : e.1 = p
      · by_cases h : p' = p
        · subst h; simp [Side.updateQ, Side.lookup, he]
        · simp [Side.updateQ, Side.lookup, he, h, Ne.symm h]
      · by_cases h : e.1 = p'
        · have hp : ¬ p' = p := fun hx => he (h.trans hx)
          simp [Side.updateQ, Side.lookup, he, h, hp]
        · simp [Side.updateQ, Side.lookup, he, h, ih]

theorem Side.lookup_erase (s : Side) (p p' : Qty) :
    (s.erase p).lookup p' =
      if p' = p then none else s.lookup p' := by
  induction s with
  | nil => simp [Side.erase, Side.lookup]
  | cons e rest ih =>
      by_cases he : e.1 = p
      · by_cases h : p' = p
        · subst h; simp [Side.erase, Side.lookup, he, ih]
        · simp [Side.erase, Side.lookup, he, h, ih, Ne.symm h]
      · by_cases h : e.1 = p'
        · have hp : ¬ p' = p := fun hx => he (h.trans hx)
          simp [Side.erase, Side.lookup, he, h, hp]
        · simp [Side.erase, Side.lookup, he, h, ih]

theorem Side.lookup_append (l1 l2 : Side) (p : Qty) :
    Side.lookup (l1 ++ l2) p =
      match Side.lookup l1 p with
      | some v => some v
      | none => Side.lookup l2 p := by
  induction l1 with
  | nil => simp [Side.lookup]
  | cons e rest ih =>
      by_cases h : e.1 = p
      · simp [Side.lookup, h]
      · simp [Side.lookup, h, ih]

theorem RefMap.lookup_removeKey (m : RefMap) (p p' : Qty) :
    Side.lookup (m.removeKey p) p' =
      if p' = p then none else Side.lookup m p' := by
  induction m with
  | nil => simp [RefMap.removeKey, Side.lookup]
  | cons e rest ih =>
      by_cases he : e.1 = p
      · by_cases h : p' = p
        · subst h
          simp [RefMap.removeKey, List.filter, he, Side.lookup] at ih ⊢
          simpa [he] using ih
        · simp [RefMap.removeKey, List.filter, he, Side.lookup, h] at ih ⊢
          simp [ih, h, Ne.symm h]
      · by_cases h : e.1 = p'
        · have hp : ¬ p' = p := fun hx => he (h.trans hx)
          simp [RefMap.removeKey, List.filter, he, Side.lookup, h, hp]
        · simp [RefMap.removeKey, List.filter, he, Side.lookup, h] at ih ⊢
          simp [ih, h]

theorem RefMap.lookup_upsert (m : RefMap) (p q p' : Qty) :
    Side.lookup (m.upsert p q) p' =
      if p' = p then some q else Side.lookup m p' := by
  rw [RefMap.upsert, Side.lookup_append]
  by_cases h : p' = p
  · subst h; simp [RefMap.lookup_removeKey, Side.lookup]
  · simp [RefMap.lookup_removeKey, h, Side.lookup, Ne.symm h]
    cases Side.lookup m p' <;> simp

theorem RefMap.lookup_insertIfAbsent (m : RefMap) (p q p' : Qty) :
    Side.lookup (m.insertIfAbsent p q) p' =
      if p' = p then some ((Side.lookup m p).getD q) else Side.lookup m p' := by
  rw [RefMap.insertIfAbsent]
  cases hm : Side.lookup m p with
  | some v =>
      by_cases h : p' = p
      · subst h; simp [hm]
      · simp [h]
  | none =>
      rw [Side.lookup_append]
      by_cases h : p' = p
      · subst h; simp [hm, Side.lookup]
      · simp [h, Side.lookup, Ne.symm h]
        cases Side.lookup m p' <;> simp

theorem applySnapshotSide_lookup (entries : List (Qty × Qty)) (s : Side) (p : Qty) :
    Side.lookup (applySnapshotSide s entries) p =
      match Side.lookup s p with
      | some v => some v
      | none => (entries.find? (fun e => decide (e.1 = p))).map Prod.snd := by
  induction entries generalizing s with
  | nil => cases h : Side.lookup s p <;> simp [applySnapshotSide, h]
  | cons e rest ih =>
      have hfold : applySnapshotSide s (e :: rest)
          = applySnapshotSide (s.insertNew e.1 e.2) rest := by
        simp [applySnapshotSide]
      rw [hfold, ih]
      by_cases h : e.1 = p
      · rw [Side.lookup_insertNew]
        subst h
        simp only [if_pos rfl, List.find?]
        cases hs : Side.lookup s e.1 <;> simp [hs]
      · rw [Side.lookup_insertNew]
        have hp : ¬ p = e.1 := fun hx => h hx.symm
        simp only [if_neg hp, List.find?]
        cases hs : Side.lookup s p <;> simp [hs, h]

/-!
## Agreement between the code model and the reference models
-/

theorem MapAgrees.erase_removeKey {s : Side} {m : RefMap} (h : MapAgrees s m)
    (p : Qty) : MapAgrees (s.erase p) (m.removeKey p) := by
  intro p2
  rw [Side.lookup_erase, RefMap.lookup_removeKey, h p2]

theorem MapAgrees.updateQ_upsert {s : Side} {m : RefMap} (h : MapAgrees s m)
    (p q : Qty) : MapAgrees (s.updateQ p q) (m.upsert p q) := by
  intro p2
  rw [Side.lookup_updateQ, RefMap.lookup_upsert, h p2]

theorem MapAgrees.insertNew_insertIfAbsent {s : Side} {m : RefMap}
    (h : MapAgrees s m) (p q : Qty) :
    MapAgrees (s.insertNew p q) (m.insertIfAbsent p q) := by
  intro p2
  rw [Side.lookup_insertNew, RefMap.lookup_insertIfAbsent, h p2, h p]

theorem MapAgrees.applyToMap_agrees {s : Side} {m : RefMap} (h : MapAgrees s m)
    (p q : Qty) :
    MapAgrees (applyToMap s p q)
      (if q = 0 then m.removeKey p else m.upsert p q) := by
  by_cases hz : q = 0
  · simpa [applyToMap, hz] using h.erase_removeKey p
  · simpa [applyToMap, hz] using h.updateQ_upsert p q

theorem MapAgrees.snapshot_agrees {s : Side} {m : RefMap}
    (entries : List (Qty × Qty)) (h : MapAgrees s m) :
    MapAgrees (applySnapshotSide s entries) (refApplySnapshotSideA m entries) := by
  induction entries generalizing s m with
  | nil => exact h
  | cons e rest ih =>
      have hstep : applySnapshotSide s (e :: rest)
          = applySnapshotSide (s.insertNew e.1 e.2) rest := by
        simp [applySnapshotSide]
      rw [hstep]
      simp only [refApplySnapshotSideA]
      exact ih (h.insertNew_insertIfAbsent e.1 e.2)

theorem StateAgrees.applyChange_agrees {st : BookState} {rst : RefState}
    (h : StateAgrees st rst) (c : Change) (hc : ValidChange c) :
    StateAgrees (applyChange st c) (refApplyChange rst c) := by
  rcases h with ⟨hb, ha⟩
  rcases hc with hbuy | hsell
  · refine ⟨?_, ?_⟩
    · simpa [applyChange, refApplyChange, hbuy] using hb.applyToMap_agrees c.price c.size
    · simpa [applyChange, refApplyChange, hbuy] using ha
  · have hnb : ¬ c.side = "buy" := by rw [hsell]; decide
    refine ⟨?_, ?_⟩
    · simpa [applyChange, refApplyChange, hsell, hnb] using hb
    · simpa [applyChange, refApplyChange, hsell, hnb] using ha.applyToMap_agrees c.price c.size

theorem StateAgrees.applyChanges_agrees {st : BookState} {rst : RefState}
    (cs : List Change) (h : StateAgrees st rst) (hv : ∀ c ∈ cs, ValidChange c) :
    StateAgrees (cs.foldl applyChange st) (refApplyChanges rst cs) := by
  induction cs generalizing st rst with
  | nil => exact h
  | cons c rest ih =>
      simp only [List.foldl, refApplyChanges]
      exact ih (h.applyChange_agrees c (hv c (by simp)))
        (fun c2 hc2 => hv c2 (by simp [hc2]))

theorem StateAgrees.processMsg_agrees {st : BookState} {rst : RefState}
    {m : RawMsg} (h : StateAgrees st rst) (hm : ValidMsg m) :
    StateAgrees (processMsg st m) (refProcessMsgA rst m) := by
  by_cases hs : m.type = "snapshot"
  · constructor
    · simpa [processMsg, refProcessMsgA, hs] using (h.1).snapshot_agrees m.bids
    · simpa [processMsg, refProcessMsgA, hs] using (h.2).snapshot_agrees m.asks
  · have hl : m.type = "l2update" := by
      rcases hm.1 with h1 | h1
      · exact absurd h1 hs
      · exact h1
    simp only [processMsg, refProcessMsgA, if_neg hs, hl, if_pos]
    exact h.applyChanges_agrees m.changes hm.2

theorem StateAgrees.processUpdates_agrees {st : BookState} {rst : RefState}
    (msgs : List RawMsg) (h : StateAgrees st rst) (hv : ValidSeq msgs) :
    StateAgrees (processUpdates st msgs) (refFoldA rst msgs) := by
  induction msgs generalizing st rst with
  | nil => exact h
  | cons m rest ih =>
      simp only [processUpdates, List.foldl, refFoldA]
      exact ih (h.processMsg_agrees (hv m (by simp)))
        (fun m2 hm2 => hv m2 (by simp [hm2]))

/-!
## Preservation of the nonzero-quantity invariant
-/

theorem SideInv.erase_inv {s : Side} (h : SideInv s) (p : Qty) :
    SideInv (s.erase p) := by
  intro p2 q2 hl
  rw [Side.lookup_erase] at hl
  by_cases hp : p2 = p
  · rw [if_pos hp] at hl; exact absurd hl (by simp)
  · rw [if_neg hp] at hl; exact h p2 q2 hl

theorem SideInv.updateQ_inv {s : Side} (h : SideInv s) {q : Qty} (hq : q ≠ 0)
    (p : Qty) : SideInv (s.updateQ p q) := by
  intro p2 q2 hl
  rw [Side.lookup_updateQ] at hl
  by_cases hp : p2 = p
  · rw [if_pos hp] at hl
    cases hl
    exact hq
  · rw [if_neg hp] at hl; exact h p2 q2 hl

theorem SideInv.insertNew_inv {s : Side} (h : SideInv s) {q : Qty} (hq : q ≠ 0)
    (p : Qty) : SideInv (s.insertNew p q) := by
  intro p2 q2 hl
  rw [Side.lookup_insertNew] at hl
  by_cases hp : p2 = p
  · rw [if_pos hp] at hl
    cases hlk : Side.lookup s p with
    | none => rw [hlk] at hl; cases hl; exact hq
    | some v => rw [hlk] at hl; cases hl; exact h p v hlk
  · rw [if_neg hp] at hl; exact h p2 q2 hl

theorem SideInv.applyToMap_inv {s : Side} (h : SideInv s) (p q : Qty) :
    SideInv (applyToMap s p q) := by
  by_cases hz : q = 0
  · simpa [applyToMap, hz] using h.erase_inv p
  · simpa [applyToMap, hz] using h.updateQ_inv hz p

theorem SideInv.snapshot_inv {s : Side} (entries : List (Qty × Qty))
    (h : SideInv s) (hnz : ∀ e ∈ entries, e.2 ≠ 0) :
    SideInv (applySnapshotSide s entries) := by
  induction entries generalizing s with
  | nil => exact h
  | cons e rest ih =>
      have hstep : applySnapshotSide s (e :: rest)
          = applySnapshotSide (s.insertNew e.1 e.2) rest := by
        simp [applySnapshotSide]
      rw [hstep]
      exact ih (h.insertNew_inv (hnz e (by simp)) e.1)
        (fun e2 he2 => hnz e2 (by simp [he2]))

theorem StateInv.applyChange_inv {st : BookState} (h : StateInv st)
    (c : Change) : StateInv (applyChange st c) := by
  by_cases hb : c.side = "buy"
  · exact ⟨by simpa [applyChange, hb] using h.1.applyToMap_inv c.price c.size,
      by simpa [applyChange, hb] using h.2⟩
  · exact ⟨by simpa [applyChange, hb] using h.1,
      by simpa [applyChange, hb] using h.2.applyToMap_inv c.price c.size⟩

theorem StateInv.applyChanges_inv {st : BookState} (cs : List Change)
    (h : StateInv st) : StateInv (cs.foldl applyChange st) := by
  induction cs generalizing st with
  | nil => exact h
  | cons c rest ih =>
      simp only [List.foldl]
      exact ih (h.applyChange_inv c)

theorem StateInv.processMsg_inv {st : BookState} {m : RawMsg} (h : StateInv st)
    (hm : SnapshotEntriesNonzero m) : StateInv (processMsg st m) := by
  by_cases hs : m.type = "snapshot"
  · exact ⟨by simpa [processMsg, hs] using h.1.snapshot_inv m.bids (hm hs).1,
      by simpa [processMsg, hs] using h.2.snapshot_inv m.asks (hm hs).2⟩
  · by_cases hl : m.type = "l2update"
    · simpa [processMsg, hs, hl] using h.applyChanges_inv m.changes
    · simpa [processMsg, hs, hl] using h

theorem StateInv.processUpdates_inv {st : BookState} (msgs : List RawMsg)
    (h : StateInv st) (hm : ∀ m ∈ msgs, SnapshotEntriesNonzero m) :
    StateInv (processUpdates st msgs) := by
  induction msgs generalizing st with
  | nil => exact h
  | cons m rest ih =>
      simp only [processUpdates, List.foldl]
      exact ih (h.processMsg_inv (hm m (by simp)))
        (fun m2 hm2 => hm m2 (by simp [hm2]))

theorem initialState_inv : StateInv initialState :=
  ⟨fun p q hl => by simp [initialState, Side.lookup] at hl,
   fun p q hl => by simp [initialState, Side.lookup] at hl⟩

/-!
## The `m_bookInitialized` flag
-/

theorem applyChange_bookInitialized (st : BookState) (c : Change) :
    (applyChange st c).bookInitialized = st.bookInitialized := by
  by_cases hb : c.side = "buy" <;> simp [applyChange, hb]

theorem applyChanges_bookInitialized (cs : List Change) (st : BookState) :
    (cs.foldl applyChange st).bookInitialized = st.bookInitialized := by
  induction cs generalizing st with
  | nil => rfl
  | cons c rest ih =>
      simp only [List.foldl]
      rw [ih, applyChange_bookInitialized]

theorem processMsg_bookInitialized (st : BookState) (m : RawMsg) :
    (processMsg st m).bookInitialized
      = (st.bookInitialized || decide (m.type = "snapshot")) := by
  by_cases hs : m.type = "snapshot"
  · simp [processMsg, hs]
  · by_cases hl : m.type = "l2update"
    · simp [processMsg, hs, hl, applyChanges_bookInitialized]
    · simp [processMsg, hs, hl]

theorem processUpdates_bookInitialized (msgs : List RawMsg) (st : BookState) :
    (processUpdates st msgs).bookInitialized
      = (st.bookInitialized || msgs.any (fun m => decide (m.type = "snapshot"))) := by
  induction msgs generalizing st with
  | nil => simp [processUpdates]
  | cons m rest ih =>
      simp only [processUpdates, List.foldl] at ih ⊢
      rw [ih, processMsg_bookInitialized, List.any_cons, Bool.or_assoc]

/-!
## The applier never reads the flag when updating the maps
-/

theorem applyChange_setFlag (st : BookState) (b : Bool) (c : Change) :
    applyChange { st with bookInitialized := b } c
      = { applyChange st c with bookInitialized := b } := by
  by_cases hb : c.side = "buy" <;> simp [applyChange, hb]

theorem applyChanges_setFlag (cs : List Change) (st : BookState) (b : Bool) :
    cs.foldl applyChange { st with bookInitialized := b }
      = { cs.foldl applyChange st with bookInitialized := b } := by
  induction cs generalizing st with
  | nil => rfl
  | cons c rest ih =>
      simp only [List.foldl]
      rw [applyChange_setFlag, ih]

theorem processMsg_setFlag_bids (st : BookState) (b : Bool) (m : RawMsg) :
    (processMsg { st with bookInitialized := b } m).bids = (processMsg st m).bids := by
  by_cases hs : m.type = "snapshot"
  · simp [processMsg, hs]
  · by_cases hl : m.type = "l2update"
    · simp [processMsg, hs, hl, applyChanges_setFlag]
    · simp [processMsg, hs, hl]

theorem processMsg_setFlag_asks (st : BookState) (b : Bool) (m : RawMsg) :
    (processMsg { st with bookInitialized := b } m).asks = (processMsg st m).asks := by
  by_cases hs : m.type = "snapshot"
  · simp [processMsg, hs]
  · by_cases hl : m.type = "l2update"
    · simp [processMsg, hs, hl, applyChanges_setFlag]
    · simp [processMsg, hs, hl]

/-!
## Auxiliary facts for the claim theorems
-/

theorem Side.erase_of_lookup_none {s : Side} {p : Qty}
    (h : Side.lookup s p = none) : s.erase p = s := by
  induction s with
  | nil => rfl
  | cons e rest ih =>
      rw [Side.lookup] at h
      by_cases he : e.1 = p
      · rw [if_pos he] at h; cases h
      · rw [if_neg he] at h
        rw [Side.erase]
        simp [he, ih h]

/-!
## Claim theorems
-/

/-- C1 counterexample: the claim as stated is false.  For the valid
one-message sequence consisting of a snapshot whose bid list mentions
price 100 twice (quantities 1 then 2), the applier's loop — whose
snapshot branch calls the libcds `insert`, which fails on a present key —
stores quantity 1, while the §4.3 reference fold (insert-or-overwrite,
later entry wins) stores quantity 2, so the two resulting bid maps
differ. -/
theorem C1_counterexample :
    ValidSeq [⟨"snapshot", [((100 : ℚ), (1 : ℚ)), (100, 2)], [], []⟩]
    ∧ Side.lookup (processUpdates initialState
        [⟨"snapshot", [((100 : ℚ), (1 : ℚ)), (100, 2)], [], []⟩]).bids 100 = some 1
    ∧ Side.lookup (refFold refInit
        [⟨"snapshot", [((100 : ℚ), (1 : ℚ)), (100, 2)], [], []⟩]).bids 100 = some 2
    ∧ Side.lookup (processUpdates initialState
          [⟨"snapshot", [((100 : ℚ), (1 : ℚ)), (100, 2)], [], []⟩]).bids 100
        ≠ Side.lookup (refFold refInit
          [⟨"snapshot", [((100 : ℚ), (1 : ℚ)), (100, 2)], [], []⟩]).bids 100 := by
  decide

/-- C1 (amended): for every valid, in-order finite sequence of snapshot
and l2update messages, the pair of maps (bids, asks) produced by the
applier's processing loop equals — price by price — the result of
folding the same sequence over a plain single-threaded reference map
using the §4.3 rules amended on one point: a snapshot entry is inserted
only when its price is absent (existing pairs and earlier duplicate
entries win) instead of insert-or-overwritten; l2update changes keep the
§4.3 rules unchanged (zero quantity removes, nonzero insert-or-overwrites). -/
theorem C1_fold_agreement (msgs : List RawMsg) (h : ValidSeq msgs) :
    ∀ p : Qty,
      Side.lookup (processUpdates initialState msgs).bids p
        = Side.lookup (refFoldA refInit msgs).bids p
      ∧ Side.lookup (processUpdates initialState msgs).asks p
        = Side.lookup (refFoldA refInit msgs).asks p := by
  have hagree : StateAgrees initialState refInit :=
    ⟨fun p => rfl, fun p => rfl⟩
  have hmain := hagree.processUpdates_agrees msgs h
  exact fun p => ⟨hmain.1 p, hmain.2 p⟩

/-- C1 witness: the amended equality evaluated on a concrete valid
sequence (a snapshot followed by an l2update touching both sides). -/
theorem C1_fold_agreement_witness :
    Side.lookup (processUpdates initialState
        [⟨"snapshot", [((100 : ℚ), (1 : ℚ)), (99, 2)], [(101, 1)], []⟩,
         ⟨"l2update", [], [], [⟨"buy", 100, 0⟩, ⟨"sell", 101, 5⟩]⟩]).bids 100
      = Side.lookup (refFoldA refInit
        [⟨"snapshot", [((100 : ℚ), (1 : ℚ)), (99, 2)], [(101, 1)], []⟩,
         ⟨"l2update", [], [], [⟨"buy", 100, 0⟩, ⟨"sell", 101, 5⟩]⟩]).bids 100
    ∧ Side.lookup (processUpdates initialState
        [⟨"snapshot", [((100 : ℚ), (1 : ℚ)), (99, 2)], [(101, 1)], []⟩,
         ⟨"l2update", [], [], [⟨"buy", 100, 0⟩, ⟨"sell", 101, 5⟩]⟩]).asks 101
      = Side.lookup (refFoldA refInit
        [⟨"snapshot", [((100 : ℚ), (1 : ℚ)), (99, 2)], [(101, 1)], []⟩,
         ⟨"l2update", [], [], [⟨"buy", 100, 0⟩, ⟨"sell", 101, 5⟩]⟩]).asks 101 := by
  have h := C1_fold_agreement
    [⟨"snapshot", [((100 : ℚ), (1 : ℚ)), (99, 2)], [(101, 1)], []⟩,
     ⟨"l2update", [], [], [⟨"buy", 100, 0⟩, ⟨"sell", 101, 5⟩]⟩] (by decide)
  exact ⟨(h 100).1, (h 101).2⟩

/-- C2: on an `l2update` message the applier folds the change list over
the state in arrival order; a change with quantity 0 removes its price
from the side its `side` string names (and is a state-preserving no-op
when the price is absent); a change with nonzero quantity
inserts-or-overwrites price → quantity in that side, also when the price
was not previously present, and touches no other price of that side. -/
theorem C2_l2update_semantics (st : BookState) (m : RawMsg)
    (h : m.type = "l2update") :
    processMsg st m = m.changes.foldl applyChange st
    ∧ ∀ (st2 : BookState) (c : Change),
        (c.size = 0 →
          Side.lookup (namedSide (applyChange st2 c) c.side) c.price = none
          ∧ (Side.lookup (namedSide st2 c.side) c.price = none →
              applyChange st2 c = st2))
        ∧ (c.size ≠ 0 →
            Side.lookup (namedSide (applyChange st2 c) c.side) c.price
              = some c.size)
        ∧ (∀ p, p ≠ c.price →
            Side.lookup (namedSide (applyChange st2 c) c.side) p
              = Side.lookup (namedSide st2 c.side) p) := by
  have hs : ¬ m.type = "snapshot" := by rw [h]; decide
  refine ⟨by simp [processMsg, hs, h], fun st2 c => ⟨?_, ?_, ?_⟩⟩
  · intro hz
    by_cases hb : c.side = "buy"
    · constructor
      · simp [applyChange, namedSide, applyToMap, hb, hz, Side.lookup_erase]
      · intro habs
        have habs2 : Side.lookup st2.bids c.price = none := by
          simpa [namedSide, hb] using habs
        calc applyChange st2 c
            = { st2 with bids := st2.bids.erase c.price } := by
              simp [applyChange, applyToMap, hb, hz]
          _ = st2 := by rw [Side.erase_of_lookup_none habs2]
    · constructor
      · simp [applyChange, namedSide, applyToMap, hb, hz, Side.lookup_erase]
      · intro habs
        have habs2 : Side.lookup st2.asks c.price = none := by
          simpa [namedSide, hb] using habs
        calc applyChange st2 c
            = { st2 with asks := st2.asks.erase c.price } := by
              simp [applyChange, applyToMap, hb, hz]
          _ = st2 := by rw [Side.erase_of_lookup_none habs2]
  · intro hnz
    by_cases hb : c.side = "buy" <;>
      simp [applyChange, namedSide, applyToMap, hb, hnz, Side.lookup_updateQ]
  · intro p hp
    by_cases hb : c.side = "buy" <;> by_cases hz : c.size = 0 <;>
      simp [applyChange, namedSide, applyToMap, hb, hz,
        Side.lookup_erase, Side.lookup_updateQ, hp]

/-- C2 witness: the l2update semantics evaluated on a concrete state and
message (removal of a present bid, upsert of an absent ask). -/
theorem C2_l2update_semantics_witness :
    processMsg { bids := [((100 : ℚ), (1 : ℚ))], asks := [], bookInitialized := true }
        ⟨"l2update", [], [], [⟨"buy", 100, 0⟩, ⟨"sell", 101, 5⟩]⟩
      = ([⟨"buy", 100, 0⟩, ⟨"sell", 101, 5⟩] : List Change).foldl applyChange
          { bids := [((100 : ℚ), (1 : ℚ))], asks := [], bookInitialized := true }
    ∧ Side.lookup (namedSide (applyChange
          { bids := [((100 : ℚ), (1 : ℚ))], asks := [], bookInitialized := true }
          ⟨"buy", 100, 0⟩) "buy") 100 = none
    ∧ Side.lookup (namedSide (applyChange
          { bids := [((100 : ℚ), (1 : ℚ))], asks := [], bookInitialized := true }
          ⟨"sell", 101, 5⟩) "sell") 101 = some 5 := by
  have h := C2_l2update_semantics
    { bids := [((100 : ℚ), (1 : ℚ))], asks := [], bookInitialized := true }
    ⟨"l2update", [], [], [⟨"buy", 100, 0⟩, ⟨"sell", 101, 5⟩]⟩ rfl
  refine ⟨h.1, ?_, ?_⟩
  · exact ((h.2 { bids := [((100 : ℚ), (1 : ℚ))], asks := [], bookInitialized := true }
      ⟨"buy", 100, 0⟩).1 rfl).1
  · exact (h.2 { bids := [((100 : ℚ), (1 : ℚ))], asks := [], bookInitialized := true }
      ⟨"sell", 101, 5⟩).2.1 (by decide)

/-- C3 counterexample: the claim as stated is false.  Processing, from
the uninitialized initial state, a snapshot whose bid list carries price
100 twice (quantities 1 then 2) stores quantity 1: the snapshot branch
uses the libcds `insert`, which fails on a present key, so the LATER
duplicate does not determine the stored quantity. -/
theorem C3_counterexample :
    initialState.bookInitialized = false
    ∧ Side.lookup (processMsg initialState
        ⟨"snapshot", [((100 : ℚ), (1 : ℚ)), (100, 2)], [], []⟩).bids 100 = some 1
    ∧ Side.lookup (processMsg initialState
        ⟨"snapshot", [((100 : ℚ), (1 : ℚ)), (100, 2)], [], []⟩).bids 100 ≠ some 2 := by
  decide

/-- C3 (amended): for every snapshot message, each entry of its bid and
ask lists is inserted into the corresponding Side only when its price is
not yet present — so the quantity stored at a price after the snapshot is
the pre-snapshot quantity when the price was present, and otherwise the
quantity of the EARLIEST entry at that price in iteration order — and
after all entries are processed, `initialized` is set to true. -/
theorem C3_snapshot_insert_if_absent (st : BookState) (m : RawMsg)
    (h : m.type = "snapshot") :
    (processMsg st m).bookInitialized = true
    ∧ (∀ p, Side.lookup (processMsg st m).bids p =
        match Side.lookup st.bids p with
        | some v => some v
        | none => (m.bids.find? (fun e => decide (e.1 = p))).map Prod.snd)
    ∧ (∀ p, Side.lookup (processMsg st m).asks p =
        match Side.lookup st.asks p with
        | some v => some v
        | none => (m.asks.find? (fun e => decide (e.1 = p))).map Prod.snd) := by
  refine ⟨by simp [processMsg, h], fun p => ?_, fun p => ?_⟩
  · have hb : (processMsg st m).bids = applySnapshotSide st.bids m.bids := by
      simp [processMsg, h]
    rw [hb, applySnapshotSide_lookup]
  · have ha : (processMsg st m).asks = applySnapshotSide st.asks m.asks := by
      simp [processMsg, h]
    rw [ha, applySnapshotSide_lookup]

/-- C3 witness: the amended snapshot semantics evaluated on the concrete
duplicate-price snapshot of the counterexample. -/
theorem C3_snapshot_insert_if_absent_witness :
    (processMsg initialState
        ⟨"snapshot", [((100 : ℚ), (1 : ℚ)), (100, 2)], [(101, 3)], []⟩).bookInitialized = true
    ∧ Side.lookup (processMsg initialState
        ⟨"snapshot", [((100 : ℚ), (1 : ℚ)), (100, 2)], [(101, 3)], []⟩).bids 100
      = (([((100 : ℚ), (1 : ℚ)), (100, 2)] : List (Qty × Qty)).find?
          (fun e => decide (e.1 = 100))).map Prod.snd := by
  have h := C3_snapshot_insert_if_absent initialState
    ⟨"snapshot", [((100 : ℚ), (1 : ℚ)), (100, 2)], [(101, 3)], []⟩ rfl
  refine ⟨h.1, ?_⟩
  have h2 := h.2.1 100
  simp only [initialState, Side.lookup] at h2
  exact h2

/-- C4 counterexample: the claim as stated is false.  A snapshot message
whose bid list carries the entry (100, 0) stores quantity 0: its branch
calls `insert(price, size)` with no zero-quantity guard, so afterwards
price 100 is present in the bid Side with stored quantity zero. -/
theorem C4_counterexample :
    Side.lookup (processMsg initialState
        ⟨"snapshot", [((100 : ℚ), (0 : ℚ))], [], []⟩).bids 100 = some 0
    ∧ ¬ StateInv (processMsg initialState
        ⟨"snapshot", [((100 : ℚ), (0 : ℚ))], [], []⟩) := by
  refine ⟨by decide, fun hinv => ?_⟩
  exact hinv.1 100 0 (by decide) rfl

/-- C4 (amended): after every message the applier processes, each Side
satisfies "a price key is present iff its stored quantity is nonzero",
PROVIDED every snapshot entry of the sequence carries a nonzero quantity;
l2update changes and unknown messages preserve the invariant
unconditionally, and only a zero-quantity snapshot entry can violate it. -/
theorem C4_nonzero_invariant (msgs : List RawMsg)
    (h : ∀ m ∈ msgs, SnapshotEntriesNonzero m) :
    StateInv (processUpdates initialState msgs) :=
  initialState_inv.processUpdates_inv msgs h

/-- C4 witness: the invariant evaluated after a concrete
nonzero-quantity snapshot followed by an l2update. -/
theorem C4_nonzero_invariant_witness :
    (∀ m ∈ [⟨"snapshot", [((100 : ℚ), (1 : ℚ))], [(101, 2)], []⟩,
            ⟨"l2update", [], [], [⟨"buy", 100, 0⟩, ⟨"sell", 102, 7⟩]⟩],
       SnapshotEntriesNonzero m)
    ∧ StateInv (processUpdates initialState
        [⟨"snapshot", [((100 : ℚ), (1 : ℚ))], [(101, 2)], []⟩,
         ⟨"l2update", [], [], [⟨"buy", 100, 0⟩, ⟨"sell", 102, 7⟩]⟩]) :=
  ⟨by decide,
   C4_nonzero_invariant
     [⟨"snapshot", [((100 : ℚ), (1 : ℚ))], [(101, 2)], []⟩,
      ⟨"l2update", [], [], [⟨"buy", 100, 0⟩, ⟨"sell", 102, 7⟩]⟩]
     (by decide)⟩

/-- C5: a snapshot message received after the book is already
initialized is merged into the existing maps: neither map is cleared, so
every price level present before the snapshot and not mentioned in it is
still present afterwards, with unchanged quantity, on both sides. -/
theorem C5_snapshot_merges (st : BookState) (m : RawMsg)
    (h : m.type = "snapshot") (_hinit : st.bookInitialized = true) :
    (∀ p v, Side.lookup st.bids p = some v → (∀ e ∈ m.bids, e.1 ≠ p) →
        Side.lookup (processMsg st m).bids p = some v)
    ∧ (∀ p v, Side.lookup st.asks p = some v → (∀ e ∈ m.asks, e.1 ≠ p) →
        Side.lookup (processMsg st m).asks p = some v) := by
  constructor
  · intro p v hp hmem
    have hb : (processMsg st m).bids = applySnapshotSide st.bids m.bids := by
      simp [processMsg, h]
    rw [hb, applySnapshotSide_lookup, hp]
  · intro p v hp hmem
    have ha : (processMsg st m).asks = applySnapshotSide st.asks m.asks := by
      simp [processMsg, h]
    rw [ha, applySnapshotSide_lookup, hp]

/-- C5 witness: merging evaluated on a concrete initialized state and a
second snapshot that does not mention the surviving price levels. -/
theorem C5_snapshot_merges_witness :
    Side.lookup (processMsg
        { bids := [((100 : ℚ), (1 : ℚ))], asks := [((101 : ℚ), (2 : ℚ))],
          bookInitialized := true }
        ⟨"snapshot", [(99, 4)], [(102, 6)], []⟩).bids 100 = some 1
    ∧ Side.lookup (processMsg
        { bids := [((100 : ℚ), (1 : ℚ))], asks := [((101 : ℚ), (2 : ℚ))],
          bookInitialized := true }
        ⟨"snapshot", [(99, 4)], [(102, 6)], []⟩).asks 101 = some 2 := by
  have h := C5_snapshot_merges
    { bids := [((100 : ℚ), (1 : ℚ))], asks := [((101 : ℚ), (2 : ℚ))],
      bookInitialized := true }
    ⟨"snapshot", [(99, 4)], [(102, 6)], []⟩ rfl rfl
  exact ⟨h.1 100 1 (by decide) (by decide), h.2 101 2 (by decide) (by decide)⟩

/-- C6: the `initialized` flag starts false; each processed message
leaves it at `old || (type = snapshot)` — so it becomes true exactly when
a snapshot message is processed and never reverts to false under any
later message — and after any run from the initial state it is true iff
the sequence contained a snapshot (hence the false→true transition
happens once, on the first snapshot). -/
theorem C6_initialized_flag :
    initialState.bookInitialized = false
    ∧ (∀ (st : BookState) (m : RawMsg),
        (processMsg st m).bookInitialized
          = (st.bookInitialized || decide (m.type = "snapshot")))
    ∧ (∀ msgs : List RawMsg,
        ((processUpdates initialState msgs).bookInitialized = true
          ↔ ∃ m ∈ msgs, m.type = "snapshot")) := by
  refine ⟨rfl, processMsg_bookInitialized, fun msgs => ?_⟩
  rw [processUpdates_bookInitialized]
  simp [initialState, List.any_eq_true]

/-- C7: a message whose type discriminant is neither `snapshot` nor
`l2update` falls through both branches of the dispatch: processing it
leaves the entire state — both Sides and the initialized flag —
unchanged. -/
theorem C7_unknown_type_ignored (st : BookState) (m : RawMsg)
    (h1 : m.type ≠ "snapshot") (h2 : m.type ≠ "l2update") :
    processMsg st m = st := by
  simp [processMsg, h1, h2]

/-- C7 witness: a concrete unknown-type message on a concrete state. -/
theorem C7_unknown_type_ignored_witness :
    processMsg { bids := [((100 : ℚ), (1 : ℚ))], asks := [], bookInitialized := true }
        ⟨"heartbeat", [], [], [⟨"buy", 100, 0⟩]⟩
      = { bids := [((100 : ℚ), (1 : ℚ))], asks := [], bookInitialized := true } :=
  C7_unknown_type_ignored
    { bids := [((100 : ℚ), (1 : ℚ))], asks := [], bookInitialized := true }
    ⟨"heartbeat", [], [], [⟨"buy", 100, 0⟩]⟩ (by decide) (by decide)

/-- C8: for any state, side string and nonzero quantity q, applying the
zero-quantity removal of price p and then the update p → q leaves p
stored with quantity q on the named side, while applying the two changes
in the reverse order leaves p absent from that side: the two application
orders produce divergent states. -/
theorem C8_order_sensitivity (st : BookState) (side : String) (p q : Qty)
    (hq : q ≠ 0) :
    Side.lookup (namedSide
        (applyChange (applyChange st ⟨side, p, 0⟩) ⟨side, p, q⟩) side) p = some q
    ∧ Side.lookup (namedSide
        (applyChange (applyChange st ⟨side, p, q⟩) ⟨side, p, 0⟩) side) p = none := by
  by_cases hb : side = "buy" <;>
    simp [applyChange, namedSide, applyToMap, hb, hq,
      Side.lookup_erase, Side.lookup_updateQ]

/-- C8 witness: the order divergence evaluated at a concrete state,
price and quantity on the buy side. -/
theorem C8_order_sensitivity_witness :
    Side.lookup (namedSide
        (applyChange (applyChange initialState ⟨"buy", 100, 0⟩) ⟨"buy", 100, 5⟩)
        "buy") 100 = some 5
    ∧ Side.lookup (namedSide
        (applyChange (applyChange initialState ⟨"buy", 100, 5⟩) ⟨"buy", 100, 0⟩)
        "buy") 100 = none :=
  C8_order_sensitivity initialState "buy" 100 5 (by decide)

/-- C9: an l2update change is applied to the `bids` map exactly when its
side string equals "buy", and to the `asks` map in every other case —
any side value other than "sell" included — while the opposite map is
left untouched; no side value is rejected. -/
theorem C9_side_routing (st : BookState) (c : Change) :
    ((applyChange st c).bids, (applyChange st c).asks)
      = if c.side = "buy"
          then (applyToMap st.bids c.price c.size, st.asks)
          else (st.bids, applyToMap st.asks c.price c.size) := by
  by_cases hb : c.side = "buy" <;> simp [applyChange, hb]

/-- C10: the applier never reads the initialized flag when applying a
message to the maps: processing any message — an l2update dequeued
before any snapshot included — from states differing only in the flag
produces identical bids and asks maps. -/
theorem C10_no_init_gate (bids asks : Side) (b1 b2 : Bool) (m : RawMsg) :
    (processMsg ⟨bids, asks, b1⟩ m).bids = (processMsg ⟨bids, asks, b2⟩ m).bids
    ∧ (processMsg ⟨bids, asks, b1⟩ m).asks = (processMsg ⟨bids, asks, b2⟩ m).asks :=
  ⟨processMsg_setFlag_bids ⟨bids, asks, b2⟩ b1 m,
   processMsg_setFlag_asks ⟨bids, asks, b2⟩ b1 m⟩
